import Mathlib

/-
  Verification development for the financial_data_load pipeline of the
  neo4j-and-azure-lab repository.

  The Python sources are shallowly embedded:
  - loader.py      : company-name normalization and CSV record construction
  - schema.py      : constraint / index DDL over an explicit schema state
                     with Cypher CREATE ... IF NOT EXISTS semantics
  - pipeline.py    : process_all_pdfs as a fold over an extraction oracle,
                     and the summary artifact of _write_summary
  - main.py        : cmd_load as an event trace (ordering of phases)

  External effects (the Neo4j driver, the LLM pipeline, the filesystem) are
  modelled by explicit state or by oracles passed as arguments; machine
  floats (timing fields) are omitted because no claim mentions them.
-/

namespace FinLoad

/-! Loader: company name normalization (loader.py lines 15-35). -/

/-- Embedding of COMPANY_NAME_MAPPINGS: canonical company names mapped from
CSV uppercase variants, as an association list in source order. -/
def COMPANY_NAME_MAPPINGS : List (String × String) :=
  [ ("AMAZON", "Amazon.com, Inc."),
    ("NVIDIA CORPORATION", "NVIDIA Corporation"),
    ("APPLE INC", "Apple Inc."),
    ("PAYPAL", "PayPal Holdings, Inc."),
    ("INTEL CORP", "Intel Corporation"),
    ("AMERICAN INTL GROUP", "American International Group, Inc."),
    ("PG&E CORP", "PG&E Corporation"),
    ("MCDONALDS CORP", "McDonald\x27s Corporation"),
    ("MICROSOFT CORP", "Microsoft Corporation") ]

/-- Python dict membership test plus subscription, `MAPPINGS[name]` guarded by
`name in MAPPINGS`, as a single association-list lookup. -/
def tableLookup (name : String) : Option String :=
  (COMPANY_NAME_MAPPINGS.find? (fun p => p.1 == name)).map (fun p => p.2)

/-- Model of Python str.upper restricted to ASCII, which is the alphabet of
every key of the table. -/
def pyUpper (s : String) : String := String.mk (s.data.map Char.toUpper)

/-- Embedding of normalize_company_name: exact table hit first, then a hit on
the uppercased name, otherwise the identity. -/
def normalize_company_name (name : String) : String :=
  match tableLookup name with
  | some v => v
  | none =>
    match tableLookup (pyUpper name) with
    | some v => v
    | none => name

/-- A successful table lookup returns the second component of an entry of the
table. -/
lemma tableLookup_mem {s v : String} (h : tableLookup s = some v) :
    ∃ p ∈ COMPANY_NAME_MAPPINGS, p.2 = v := by
  unfold tableLookup at h
  cases hf : COMPANY_NAME_MAPPINGS.find? (fun p => p.1 == s) with
  | none => rw [hf] at h; simp at h
  | some p =>
    rw [hf] at h
    exact ⟨p, List.mem_of_find?_eq_some hf, Option.some.inj h⟩

/-- Every canonical value of the normalization table is a fixed point of
normalize_company_name. -/
lemma canonical_values_fixed :
    ∀ p ∈ COMPANY_NAME_MAPPINGS, normalize_company_name p.2 = p.2 := by decide

/-! Pipeline: process_all_pdfs and the summary artifact (pipeline.py). -/

/-- Embedding of PDFProcessingResult (pipeline.py lines 59-72).  The float
timing fields start_time / end_time are omitted: no claim mentions timing. -/
structure PDFProcessingResult where
  pdf_path : String
  success : Bool
  error : Option String
  error_traceback : Option String
deriving DecidableEq, Repr

/-- Oracle for one pipeline.run_async call on a document: ok on success, or
the pair (str(e), traceback.format_exc()) when the call raises. -/
abbrev ExtractOracle := String → Except (String × String) Unit

/-- One iteration of the processing loop of process_all_pdfs: the try block
marks success, the except block records the message and traceback and lets
the loop continue. -/
def processOne (ext : ExtractOracle) (pdf_path : String) : PDFProcessingResult :=
  match ext pdf_path with
  | Except.ok _ => { pdf_path := pdf_path, success := true,
                     error := none, error_traceback := none }
  | Except.error e => { pdf_path := pdf_path, success := false,
                        error := some e.1, error_traceback := some e.2 }

/-- Embedding of process_all_pdfs (pipeline.py lines 120-158): the documents
are processed one by one in list order, each appending its result. -/
def process_all_pdfs (ext : ExtractOracle) (pdf_files : List String) :
    List PDFProcessingResult :=
  pdf_files.map (processOne ext)

/-- Embedding of the summary artifact of _write_summary (pipeline.py lines
196-221): the headline counts, the names of successful documents, and for
each failed document its name and error message. -/
structure Summary where
  total : Nat
  nSuccessful : Nat
  nFailed : Nat
  okEntries : List String
  failEntries : List (String × String)
deriving DecidableEq, Repr

/-- Model of _write_summary as the data written to the summary file. -/
def write_summary (results : List PDFProcessingResult) : Summary :=
  let successful := results.filter (fun r => r.success)
  let failed := results.filter (fun r => !r.success)
  { total := results.length
    nSuccessful := successful.length
    nFailed := failed.length
    okEntries := successful.map (fun r => r.pdf_path)
    failEntries := failed.map (fun r => (r.pdf_path, r.error.getD "")) }

/-- The record appended by the try branch of the loop for a document that
extracts cleanly. -/
def okResult (p : String) : PDFProcessingResult :=
  { pdf_path := p, success := true, error := none, error_traceback := none }

/-- The record appended by the except branch of the loop for a document whose
extraction raised with message msg and traceback tb. -/
def failResult (p msg tb : String) : PDFProcessingResult :=
  { pdf_path := p, success := false, error := some msg, error_traceback := some tb }

/-- A deterministic oracle that fails exactly on b.pdf, used as concrete
input for witnesses. -/
def extOneFail : ExtractOracle := fun p =>
  if p = "b.pdf" then Except.error ("boom", "tb") else Except.ok ()

/-! Schema manager: constraint and index DDL (schema.py).  The schema state
of the graph store is an explicit record of created object names, and every
statement carries Cypher CREATE ... IF NOT EXISTS semantics: a no-op when
the name is already present. -/

/-- Embedding of CONSTRAINTS (schema.py lines 12-15): (name, label, property)
triples of the metadata uniqueness constraints. -/
def CONSTRAINTS : List (String × String × String) :=
  [ ("unique_company_name", "Company", "name"),
    ("unique_asset_manager_name", "AssetManager", "managerName") ]

/-- Embedding of EXTRACTION_CONSTRAINTS (schema.py lines 27-32). -/
def EXTRACTION_CONSTRAINTS : List (String × String × String) :=
  [ ("unique_riskfactor_name", "RiskFactor", "name"),
    ("unique_product_name", "Product", "name"),
    ("unique_executive_name", "Executive", "name"),
    ("unique_financialmetric_name", "FinancialMetric", "name") ]

/-- Embedding of FULLTEXT_INDEXES (schema.py lines 18-21). -/
def FULLTEXT_INDEXES : List (String × String × List String) :=
  [ ("search_entities", "Company|Product|RiskFactor|Executive|FinancialMetric",
      ["name"]),
    ("chunkText", "Chunk", ["text"]) ]

/-- The schema objects present in the graph store, by name. -/
structure SchemaState where
  constraints : List String
  fulltextIndexes : List String
  vectorIndexes : List String
deriving DecidableEq, Repr

/-- CREATE ... IF NOT EXISTS on one name space of schema objects. -/
def addIfAbsent (names : List String) (n : String) : List String :=
  if n ∈ names then names else names ++ [n]

/-- Issue a sequence of CREATE ... IF NOT EXISTS statements. -/
def foldAdd (names : List String) (newNames : List String) : List String :=
  newNames.foldl addIfAbsent names

/-- The constraint names issued by create_all_constraints, in source order. -/
def constraintNames : List String :=
  (CONSTRAINTS ++ EXTRACTION_CONSTRAINTS).map (fun c => c.1)

/-- The fulltext index names issued by create_fulltext_indexes. -/
def fulltextNames : List String := FULLTEXT_INDEXES.map (fun f => f.1)

/-- Embedding of create_all_constraints (schema.py lines 40-46): one CREATE
CONSTRAINT name IF NOT EXISTS statement per entry of
CONSTRAINTS ++ EXTRACTION_CONSTRAINTS. -/
def create_all_constraints (st : SchemaState) : SchemaState :=
  { st with constraints := foldAdd st.constraints constraintNames }

/-- Embedding of create_fulltext_indexes (schema.py lines 49-57). -/
def create_fulltext_indexes (st : SchemaState) : SchemaState :=
  { st with fulltextIndexes := foldAdd st.fulltextIndexes fulltextNames }

/-- The neo4j_graphrag create_vector_index call issued by
create_embedding_indexes, which emits CREATE VECTOR INDEX chunkEmbeddings IF
NOT EXISTS against the store. -/
def create_vector_index (st : SchemaState) : SchemaState :=
  { st with vectorIndexes := addIfAbsent st.vectorIndexes "chunkEmbeddings" }

/-- Embedding of create_embedding_indexes (schema.py lines 60-78) under the
non-throwing IF NOT EXISTS semantics of the vector-index call. -/
def create_embedding_indexes (st : SchemaState) : SchemaState :=
  create_vector_index st

/-- Embedding of create_embedding_indexes with the underlying vector-index
call left as an oracle that may throw: the try block forwards a clean
result, the except block downgrades the exception to a warning string and
returns normally with the state unchanged. -/
def create_embedding_indexes_guarded
    (vectorCall : SchemaState → Except String SchemaState)
    (st : SchemaState) : Except String (SchemaState × Option String) :=
  match vectorCall st with
  | Except.ok st2 => Except.ok (st2, none)
  | Except.error e => Except.ok (st, some ("Vector index: " ++ e))

/-- The schema-creation phase of cmd_load, in call order: constraints, then
the embedding index, then the fulltext indexes (main.py lines 91-96). -/
def runSchemaCreation (st : SchemaState) : SchemaState :=
  create_fulltext_indexes (create_embedding_indexes (create_all_constraints st))

/-! CSV loading (loader.py lines 43-72).  A CSV row is the association list
of header names to cell values that csv.DictReader yields. -/

/-- A parsed CSV row. -/
abbrev Row := List (String × String)

/-- Python row.get(k): the first cell under header k, if the column exists. -/
def rowGet (row : Row) (k : String) : Option String :=
  (row.find? (fun p => p.1 == k)).map (fun p => p.2)

/-- Python row.get(k, d) with a string default. -/
def rowGetD (row : Row) (k d : String) : String := (rowGet row k).getD d

/-- Model of Python int() on a decimal string: the parsed integer, or none
when int() would raise ValueError. -/
def pyInt (s : String) : Option Int := s.trim.toInt?

/-- The record built per row by load_company_metadata. -/
structure CompanyMeta where
  name : String
  ticker : String
  cik : String
  cusip : String
deriving DecidableEq, Repr

/-- The four metadata fields of one row, each defaulting to the empty string
when the column is absent (loader.py lines 52-57). -/
def companyOfRow (row : Row) : CompanyMeta :=
  { name := rowGetD row "name" ""
    ticker := rowGetD row "ticker" ""
    cik := rowGetD row "cik" ""
    cusip := rowGetD row "cusip" "" }

/-- Python Path(path).name: the final component of a slash-separated path. -/
def pathName (path : String) : String := (path.splitOn "/").getLastD path

/-- The PDF filename key of a row: Path(path).name when the path_Mac_ix cell
is non-empty, none otherwise (loader.py lines 49-51). -/
def rowFilename (row : Row) : Option String :=
  let path := rowGetD row "path_Mac_ix" ""
  if path = "" then none else some (pathName path)

/-- Python dict assignment d[k] = v on an association list. -/
def dictInsert (m : List (String × CompanyMeta)) (k : String) (v : CompanyMeta) :
    List (String × CompanyMeta) :=
  m.filter (fun p => p.1 != k) ++ [(k, v)]

/-- Python dict lookup. -/
def dictLookup (m : List (String × CompanyMeta)) (k : String) : Option CompanyMeta :=
  (m.find? (fun p => p.1 == k)).map (fun p => p.2)

/-- Embedding of load_company_metadata (loader.py lines 43-58): one dict
entry per row that carries a filename, keyed by that filename. -/
def load_company_metadata (rows : List Row) : List (String × CompanyMeta) :=
  rows.foldl (fun m row =>
    match rowFilename row with
    | some fn => dictInsert m fn (companyOfRow row)
    | none => m) []

/-- The record built per row by load_asset_managers. -/
structure Holding where
  manager_name : String
  company_name : String
  shares : Int
deriving DecidableEq, Repr

/-- One row of load_asset_managers (loader.py lines 66-71): the two name
fields default to the empty string; int(row.get("shares", 0)) is 0 when the
column is absent, and raises when the cell does not parse as an integer. -/
def holdingOfRow (row : Row) : Except String Holding :=
  match rowGet row "shares" with
  | none => Except.ok
      { manager_name := rowGetD row "managerName" ""
        company_name := rowGetD row "companyName" ""
        shares := 0 }
  | some s =>
    match pyInt s with
    | some v => Except.ok
        { manager_name := rowGetD row "managerName" ""
          company_name := rowGetD row "companyName" ""
          shares := v }
    | none => Except.error ("invalid literal for int: " ++ s)

/-- Embedding of load_asset_managers (loader.py lines 61-72): one holding per
row in row order; the loop propagates the first int() failure. -/
def load_asset_managers (rows : List Row) : Except String (List Holding) :=
  match rows with
  | [] => Except.ok []
  | row :: rest =>
    match holdingOfRow row with
    | Except.ok h =>
      match load_asset_managers rest with
      | Except.ok hs => Except.ok (h :: hs)
      | Except.error e => Except.error e
    | Except.error e => Except.error e

/-! The cmd_load driver (main.py lines 46-108) as an event trace. -/

/-- The externally visible steps of one cmd_load run, in execution order. -/
inductive LoadEv where
  | clearDb : LoadEv
  | createCompanyNodes : LoadEv
  | noPdfsFound : LoadEv
  | extract : String → LoadEv
  | summary : Nat → Nat → Nat → LoadEv
  | entityResolution : LoadEv
  | constraint : String → LoadEv
  | vectorIndex : String → LoadEv
  | fulltextIndex : String → LoadEv
  | assetManagers : LoadEv
  | verifyCounts : LoadEv
  | validateEnrichment : LoadEv
deriving DecidableEq, Repr

/-- Lexicographic order on code-point sequences, the order Python uses to
compare strings. -/
def charListLe : List Char → List Char → Bool
  | [], _ => true
  | _ :: _, [] => false
  | a :: as, b :: bs =>
    if a.toNat < b.toNat then true
    else if b.toNat < a.toNat then false
    else charListLe as bs

/-- The comparison used to order filenames. -/
def strLe (a b : String) : Prop := charListLe a.data b.data = true

instance : DecidableRel strLe := fun a b =>
  inferInstanceAs (Decidable (charListLe a.data b.data = true))

/-- Python sorted() on filenames: a stable sort in lexicographic string
order. -/
def sortFiles (files : List String) : List String :=
  List.insertionSort strLe files

/-- Python list slice files[:n] for an arbitrary integer n. -/
def pySlice (xs : List String) (n : Int) : List String :=
  if 0 ≤ n then xs.take n.toNat else xs.take ((xs.length : Int) + n).toNat

/-- The truncation applied by cmd_load: Python `if args.limit:` is falsy for
None and for 0, so only a nonzero limit slices the sorted list. -/
def applyLimit (xs : List String) : Option Int → List String
  | none => xs
  | some n => if n = 0 then xs else pySlice xs n

/-- Embedding of cmd_load (main.py lines 46-108) as the trace of its steps:
optional clear, metadata creation when the company CSV exists, then either
the no-PDFs report (when the sorted glob is empty) or extraction of each
selected document followed by the summary artifact, entity resolution, all
constraints, the embedding index, the fulltext indexes, optional asset
managers, and verification. -/
def cmd_load_trace (clear csvExists amExists : Bool) (globbed : List String)
    (limit : Option Int) (ext : ExtractOracle) : List LoadEv :=
  (if clear then [LoadEv.clearDb] else []) ++
  (if csvExists then [LoadEv.createCompanyNodes] else []) ++
  (let sorted := sortFiles globbed
   if sorted.isEmpty then [LoadEv.noPdfsFound]
   else
     let files := applyLimit sorted limit
     let s := write_summary (process_all_pdfs ext files)
     (files.map LoadEv.extract) ++
     [LoadEv.summary s.total s.nSuccessful s.nFailed] ++
     [LoadEv.entityResolution] ++
     ((CONSTRAINTS ++ EXTRACTION_CONSTRAINTS).map (fun c => LoadEv.constraint c.1)) ++
     [LoadEv.vectorIndex "chunkEmbeddings"] ++
     (FULLTEXT_INDEXES.map (fun f => LoadEv.fulltextIndex f.1)) ++
     (if amExists then [LoadEv.assetManagers] else []) ++
     [LoadEv.verifyCounts, LoadEv.validateEnrichment])

/-- Whether an event is a document extraction call. -/
def isExtractEv : LoadEv → Bool
  | LoadEv.extract _ => true
  | _ => false

/-- Whether an event is a constraint creation. -/
def isConstraintEv : LoadEv → Bool
  | LoadEv.constraint _ => true
  | _ => false

/-- Whether an event is one of the two core constraint creations. -/
def isCoreConstraintEv : LoadEv → Bool
  | LoadEv.constraint n =>
      n == "unique_company_name" || n == "unique_asset_manager_name"
  | _ => false

/-- Whether an event is one of the four extraction-set constraint
creations. -/
def isExtractionConstraintEv : LoadEv → Bool
  | LoadEv.constraint n =>
      n == "unique_riskfactor_name" || n == "unique_product_name" ||
      n == "unique_executive_name" || n == "unique_financialmetric_name"
  | _ => false

/-- Whether an event is the summary report of a batch that ran. -/
def isSummaryEv : LoadEv → Bool
  | LoadEv.summary _ _ _ => true
  | _ => false

/-- Whether an event is an extraction call or the entity-resolution step. -/
def isExtractOrResEv : LoadEv → Bool
  | LoadEv.extract _ => true
  | LoadEv.entityResolution => true
  | _ => false

/-- The documents on which the extraction engine is invoked, in call order. -/
def attemptedDocs (tr : List LoadEv) : List String :=
  tr.filterMap (fun e =>
    match e with
    | LoadEv.extract d => some d
    | _ => none)

/-- The first half of the spec sentence under test in C2: every core
constraint creation precedes every extraction call. -/
def coreConstraintsBeforeExtraction (tr : List LoadEv) : Prop :=
  ∀ (i j : Fin tr.length), isCoreConstraintEv (tr.get i) = true →
    isExtractEv (tr.get j) = true → (i : Nat) < (j : Nat)

/-- The second half of the spec sentence under test in C2: every
extraction-set constraint creation follows every extraction call and the
entity-resolution step. -/
def extractionConstraintsAfterResolution (tr : List LoadEv) : Prop :=
  ∀ (i j : Fin tr.length), isExtractionConstraintEv (tr.get i) = true →
    isExtractOrResEv (tr.get j) = true → (j : Nat) < (i : Nat)

/-- The C2 claim as stated, over a cmd_load trace. -/
def claimC2 (tr : List LoadEv) : Prop :=
  coreConstraintsBeforeExtraction tr ∧ extractionConstraintsAfterResolution tr

instance (tr : List LoadEv) : Decidable (coreConstraintsBeforeExtraction tr) :=
  inferInstanceAs (Decidable (∀ (i j : Fin tr.length),
    isCoreConstraintEv (tr.get i) = true → isExtractEv (tr.get j) = true →
    (i : Nat) < (j : Nat)))

instance (tr : List LoadEv) : Decidable (extractionConstraintsAfterResolution tr) :=
  inferInstanceAs (Decidable (∀ (i j : Fin tr.length),
    isExtractionConstraintEv (tr.get i) = true →
    isExtractOrResEv (tr.get j) = true → (j : Nat) < (i : Nat)))

instance (tr : List LoadEv) : Decidable (claimC2 tr) :=
  inferInstanceAs (Decidable
    (coreConstraintsBeforeExtraction tr ∧ extractionConstraintsAfterResolution tr))

end FinLoad

/-! Claims about name normalization. -/

namespace FinLoad

/-- C3: for every input string whose exact form is a key of the normalization
table, normalize_company_name returns the mapped canonical form; likewise for
an input whose uppercased form is a key; every other input is returned
unchanged. -/
theorem c3_normalize_table_or_identity (name : String) :
    (∀ v, tableLookup name = some v → normalize_company_name name = v) ∧
    (tableLookup name = none → ∀ v, tableLookup (pyUpper name) = some v →
      normalize_company_name name = v) ∧
    (tableLookup name = none → tableLookup (pyUpper name) = none →
      normalize_company_name name = name) := by
  refine ⟨fun v h1 => ?_, fun h1 v h2 => ?_, fun h1 h2 => ?_⟩ <;>
    simp [normalize_company_name, h1]
  · rw [h2]
  · rw [h2]

/-- C3 witness: the lowercase variant of a table key maps to its canonical
form. -/
theorem c3_normalize_witness :
    normalize_company_name "amazon" = "Amazon.com, Inc." :=
  (c3_normalize_table_or_identity "amazon").2.1 (by decide)
    "Amazon.com, Inc." (by decide)

/-- C9: normalize_company_name is idempotent on every input string, because
each canonical value of the table is itself a fixed point. -/
theorem c9_normalize_idempotent (x : String) :
    normalize_company_name (normalize_company_name x) = normalize_company_name x := by
  cases h1 : tableLookup x with
  | some v =>
    have hx : normalize_company_name x = v := by simp [normalize_company_name, h1]
    rw [hx]
    obtain ⟨p, hp, hpv⟩ := tableLookup_mem h1
    have hfix := canonical_values_fixed p hp
    rw [hpv] at hfix
    exact hfix
  | none =>
    cases h2 : tableLookup (pyUpper x) with
    | some v =>
      have hx : normalize_company_name x = v := by
        simp [normalize_company_name, h1, h2]
      rw [hx]
      obtain ⟨p, hp, hpv⟩ := tableLookup_mem h2
      have hfix := canonical_values_fixed p hp
      rw [hpv] at hfix
      exact hfix
    | none =>
      have hx : normalize_company_name x = x := by
        simp [normalize_company_name, h1, h2]
      rw [hx]
      exact hx

end FinLoad

/-! Claims about process_all_pdfs and the summary artifact. -/

namespace FinLoad

/-- The result produced for a document always carries that document's path. -/
lemma processOne_path (ext : ExtractOracle) (p : String) :
    (processOne ext p).pdf_path = p := by
  unfold processOne; cases ext p <;> rfl

/-- Results keep the input documents in order: mapping pdf_path over the
results recovers the input list. -/
lemma process_paths (ext : ExtractOracle) (l : List String) :
    (process_all_pdfs ext l).map (fun r => r.pdf_path) = l := by
  induction l with
  | nil => rfl
  | cons a l ih =>
    simp only [process_all_pdfs, List.map_cons] at ih ⊢
    exact List.cons_eq_cons.mpr ⟨processOne_path ext a, ih⟩

/-- Success and the error field are mutually exclusive in every single
result. -/
lemma processOne_success_error (ext : ExtractOracle) (p : String) :
    ((processOne ext p).success = true ↔ (processOne ext p).error = none) ∧
    ((processOne ext p).success = false ↔ ∃ e, (processOne ext p).error = some e) := by
  unfold processOne; cases ext p <;> simp

/-- A run over documents that all extract cleanly yields only successful
results. -/
lemma process_all_ok (ext : ExtractOracle) (l : List String)
    (h : ∀ p ∈ l, ext p = Except.ok ()) :
    process_all_pdfs ext l = l.map okResult := by
  induction l with
  | nil => rfl
  | cons a l ih =>
    simp only [process_all_pdfs, List.map_cons]
    refine List.cons_eq_cons.mpr ⟨?_, ih (fun p hp => h p (List.mem_cons_of_mem a hp))⟩
    unfold processOne
    rw [h a (List.mem_cons_self a l)]
    rfl

/-- C10: process_all_pdfs returns exactly one result per input document in
input order; in every result success holds exactly when error is absent; and
the success count plus the failure count equals the number of inputs. -/
theorem c10_result_invariants (ext : ExtractOracle) (pdf_files : List String) :
    (process_all_pdfs ext pdf_files).map (fun r => r.pdf_path) = pdf_files ∧
    (∀ r ∈ process_all_pdfs ext pdf_files,
      (r.success = true ↔ r.error = none) ∧
      (r.success = false ↔ ∃ e, r.error = some e)) ∧
    ((process_all_pdfs ext pdf_files).filter (fun r => r.success)).length +
      ((process_all_pdfs ext pdf_files).filter (fun r => !r.success)).length =
      pdf_files.length := by
  refine ⟨process_paths ext pdf_files, ?_, ?_⟩
  · intro r hr
    obtain ⟨p, _, rfl⟩ := List.mem_map.mp hr
    exact processOne_success_error ext p
  · have h := List.length_eq_length_filter_add
      (l := process_all_pdfs ext pdf_files) (fun r => r.success)
    have hlen : (process_all_pdfs ext pdf_files).length = pdf_files.length :=
      List.length_map _ _
    omega

/-- C10 witness at a concrete oracle and a concrete batch. -/
theorem c10_result_invariants_witness :
    (process_all_pdfs extOneFail ["a.pdf", "b.pdf"]).map (fun r => r.pdf_path) =
      ["a.pdf", "b.pdf"] ∧
    ((processOne extOneFail "b.pdf").success = true ↔
      (processOne extOneFail "b.pdf").error = none) :=
  ⟨(c10_result_invariants extOneFail ["a.pdf", "b.pdf"]).1,
   ((c10_result_invariants extOneFail ["a.pdf", "b.pdf"]).2.1
      (processOne extOneFail "b.pdf") (by decide)).1⟩

end FinLoad

namespace FinLoad

/-- The success filter keeps a clean run whole; the failure filter empties
it. -/
lemma filter_ok_map (l : List String) :
    ((l.map okResult).filter (fun r => r.success) = l.map okResult) ∧
    ((l.map okResult).filter (fun r => !r.success) = []) := by
  constructor
  · refine List.filter_eq_self.mpr ?_
    intro r hr
    obtain ⟨p, _, rfl⟩ := List.mem_map.mp hr
    rfl
  · rw [List.filter_eq_nil_iff]
    intro r hr
    obtain ⟨p, _, rfl⟩ := List.mem_map.mp hr
    simp [okResult]

/-- Mapping pdf_path over clean results recovers the documents. -/
lemma map_path_ok (l : List String) :
    (l.map okResult).map (fun r => r.pdf_path) = l := by
  induction l with
  | nil => rfl
  | cons a l ih => simpa [okResult] using ih

/-- The summary of a batch with exactly one failing document in the middle:
all counts and entries in closed form. -/
lemma summary_single_fail (l1 l2 : List String) (d msg tb : String) :
    write_summary (l1.map okResult ++ failResult d msg tb :: l2.map okResult) =
      { total := l1.length + l2.length + 1,
        nSuccessful := l1.length + l2.length,
        nFailed := 1,
        okEntries := l1 ++ l2,
        failEntries := [(d, msg)] } := by
  simp [write_summary, List.filter_append, List.filter_cons,
    (filter_ok_map l1).1, (filter_ok_map l1).2,
    (filter_ok_map l2).1, (filter_ok_map l2).2, failResult,
    map_path_ok]
  constructor
  · omega
  · rw [← List.map_map, ← List.map_map, map_path_ok, map_path_ok]

/-- C1: in a batch whose documents all extract cleanly except a single
document d that fails deterministically with message msg, process_all_pdfs
records the failure and continues: the result list is the clean results for
the documents before d, then the failure record for d, then the clean
results for every document after d; the summary artifact written by
_write_summary counts exactly N-1 successes and 1 failure and carries d's
name and error message in its failure entries. -/
theorem c1_failure_isolation (ext : ExtractOracle) (pre post : List String)
    (d msg tb : String)
    (hpre : ∀ p ∈ pre, ext p = Except.ok ())
    (hd : ext d = Except.error (msg, tb))
    (hpost : ∀ p ∈ post, ext p = Except.ok ()) :
    process_all_pdfs ext (pre ++ d :: post) =
      process_all_pdfs ext pre ++
        failResult d msg tb :: process_all_pdfs ext post ∧
    (write_summary (process_all_pdfs ext (pre ++ d :: post))).total =
      (pre ++ d :: post).length ∧
    (write_summary (process_all_pdfs ext (pre ++ d :: post))).nSuccessful =
      (pre ++ d :: post).length - 1 ∧
    (write_summary (process_all_pdfs ext (pre ++ d :: post))).nFailed = 1 ∧
    (write_summary (process_all_pdfs ext (pre ++ d :: post))).failEntries =
      [(d, msg)] := by
  have hpre' : process_all_pdfs ext pre = pre.map okResult :=
    process_all_ok ext pre hpre
  have hpost' : process_all_pdfs ext post = post.map okResult :=
    process_all_ok ext post hpost
  have hone : processOne ext d = failResult d msg tb := by
    unfold processOne failResult
    rw [hd]
  have hsplit : process_all_pdfs ext (pre ++ d :: post) =
      pre.map okResult ++ failResult d msg tb :: post.map okResult := by
    show (pre ++ d :: post).map (processOne ext) = _
    rw [List.map_append, List.map_cons, hone]
    rw [show pre.map (processOne ext) = process_all_pdfs ext pre from rfl, hpre']
    rw [show post.map (processOne ext) = process_all_pdfs ext post from rfl, hpost']
  refine ⟨by rw [hsplit, hpre', hpost'], ?_, ?_, ?_, ?_⟩
  · rw [hsplit, summary_single_fail]
    simp only [List.length_append, List.length_cons]
    omega
  · rw [hsplit, summary_single_fail]
    simp only [List.length_append, List.length_cons]
    omega
  · rw [hsplit, summary_single_fail]
  · rw [hsplit, summary_single_fail]

/-- C1 witness: a three-document batch whose middle document fails yields a
summary with one failure entry naming the document and its error message. -/
theorem c1_failure_isolation_witness :
    (write_summary (process_all_pdfs extOneFail
        (["a.pdf"] ++ "b.pdf" :: ["c.pdf"]))).nFailed = 1 ∧
    (write_summary (process_all_pdfs extOneFail
        (["a.pdf"] ++ "b.pdf" :: ["c.pdf"]))).failEntries = [("b.pdf", "boom")] :=
  ⟨(c1_failure_isolation extOneFail ["a.pdf"] ["c.pdf"] "b.pdf" "boom" "tb"
      (by simp [extOneFail]) (by simp [extOneFail]) (by simp [extOneFail])).2.2.2.1,
   (c1_failure_isolation extOneFail ["a.pdf"] ["c.pdf"] "b.pdf" "boom" "tb"
      (by simp [extOneFail]) (by simp [extOneFail]) (by simp [extOneFail])).2.2.2.2⟩

end FinLoad

/-! Claims about schema and index creation. -/

namespace FinLoad

/-- Membership after one CREATE ... IF NOT EXISTS statement. -/
lemma mem_addIfAbsent {m n : String} {l : List String} :
    m ∈ addIfAbsent l n ↔ m ∈ l ∨ m = n := by
  by_cases h : n ∈ l
  · simp only [addIfAbsent, if_pos h]
    exact ⟨Or.inl, fun hm => hm.elim id (fun e => e ▸ h)⟩
  · simp [addIfAbsent, if_neg h]

/-- CREATE ... IF NOT EXISTS is a no-op on a present name. -/
lemma addIfAbsent_eq_of_mem {n : String} {l : List String} (h : n ∈ l) :
    addIfAbsent l n = l := by
  simp [addIfAbsent, h]

/-- Issuing statements never removes present names. -/
lemma mem_foldAdd_left {m : String} {l ns : List String} (h : m ∈ l) :
    m ∈ foldAdd l ns := by
  induction ns generalizing l with
  | nil => exact h
  | cons n ns ih => exact ih (mem_addIfAbsent.mpr (Or.inl h))

/-- Every issued name is present afterwards. -/
lemma mem_foldAdd_right {m : String} {l ns : List String} (h : m ∈ ns) :
    m ∈ foldAdd l ns := by
  induction ns generalizing l with
  | nil => cases h
  | cons n ns ih =>
    rcases List.mem_cons.mp h with rfl | hm
    · show m ∈ foldAdd (addIfAbsent l m) ns
      exact mem_foldAdd_left (mem_addIfAbsent.mpr (Or.inr rfl))
    · exact ih hm

/-- Issuing statements whose names are all present changes nothing. -/
lemma foldAdd_eq_of_subset {l ns : List String} (h : ∀ n ∈ ns, n ∈ l) :
    foldAdd l ns = l := by
  induction ns with
  | nil => rfl
  | cons n ns ih =>
    show foldAdd (addIfAbsent l n) ns = l
    rw [addIfAbsent_eq_of_mem (h n (List.mem_cons_self n ns))]
    exact ih (fun n hn => h n (List.mem_cons_of_mem _ hn))

/-- Issuing the same statement batch twice equals issuing it once. -/
lemma foldAdd_idem (l ns : List String) :
    foldAdd (foldAdd l ns) ns = foldAdd l ns :=
  foldAdd_eq_of_subset (fun _ hn => mem_foldAdd_right hn)

/-- One repeated statement is a no-op the second time. -/
lemma addIfAbsent_idem (l : List String) (n : String) :
    addIfAbsent (addIfAbsent l n) n = addIfAbsent l n :=
  addIfAbsent_eq_of_mem (mem_addIfAbsent.mpr (Or.inr rfl))

/-- C4: running the schema-creation phase (create_all_constraints, then
create_embedding_indexes, then create_fulltext_indexes) twice in succession
yields the same final schema state as running it once, on every starting
state; under the IF NOT EXISTS semantics no statement of the second run can
fail. -/
theorem c4_schema_creation_idempotent (st : SchemaState) :
    runSchemaCreation (runSchemaCreation st) = runSchemaCreation st := by
  have hval : ∀ s : SchemaState, runSchemaCreation s =
      { constraints := foldAdd s.constraints constraintNames,
        fulltextIndexes := foldAdd s.fulltextIndexes fulltextNames,
        vectorIndexes := addIfAbsent s.vectorIndexes "chunkEmbeddings" } :=
    fun s => rfl
  rw [hval st, hval]
  simp only [SchemaState.mk.injEq]
  exact ⟨foldAdd_idem _ _, foldAdd_idem _ _, addIfAbsent_idem _ _⟩

/-- C5: whatever the underlying vector-index call does,
create_embedding_indexes returns normally: a clean call forwards the new
state with no warning, and a call that raises is caught and downgraded to a
warning naming the error, with the state unchanged. -/
theorem c5_vector_index_errors_nonfatal
    (vectorCall : SchemaState → Except String SchemaState) (st : SchemaState) :
    ((create_embedding_indexes_guarded vectorCall st).isOk = true) ∧
    (∀ st2, vectorCall st = Except.ok st2 →
      create_embedding_indexes_guarded vectorCall st = Except.ok (st2, none)) ∧
    (∀ e, vectorCall st = Except.error e →
      create_embedding_indexes_guarded vectorCall st =
        Except.ok (st, some ("Vector index: " ++ e))) := by
  unfold create_embedding_indexes_guarded
  cases h : vectorCall st <;> simp [Except.isOk, Except.toBool]

/-- C5 witness: a vector-index call that raises is downgraded to a warning
and no exception propagates. -/
theorem c5_vector_index_witness :
    create_embedding_indexes_guarded (fun _ => Except.error "boom")
        (SchemaState.mk [] [] []) =
      Except.ok (SchemaState.mk [] [] [], some ("Vector index: " ++ "boom")) :=
  (c5_vector_index_errors_nonfatal (fun _ => Except.error "boom")
    (SchemaState.mk [] [] [])).2.2 "boom" rfl

end FinLoad

namespace FinLoad

/-- In a trace split into a phase A followed by a phase B, any event matched
only in B comes strictly after any event matched only in A. -/
lemma append_phase_order {A B : List LoadEv} {pA pB : LoadEv → Bool}
    (hA : ∀ e ∈ A, pB e = false) (hB : ∀ e ∈ B, pA e = false)
    {i j : Nat} {e1 e2 : LoadEv}
    (hi : (A ++ B).get? i = some e1) (hpi : pB e1 = true)
    (hj : (A ++ B).get? j = some e2) (hpj : pA e2 = true) :
    j < i := by
  have hjA : j < A.length := by
    by_contra hge
    push_neg at hge
    rw [List.get?_append_right hge] at hj
    have := hB e2 (List.get?_mem hj)
    rw [this] at hpj
    exact Bool.false_ne_true hpj
  have hiA : A.length ≤ i := by
    by_contra hlt
    push_neg at hlt
    rw [List.get?_append hlt] at hi
    have := hA e1 (List.get?_mem hi)
    rw [this] at hpi
    exact Bool.false_ne_true hpi
  omega

/-- An optional singleton step satisfies any property its event does. -/
lemma forall_mem_if_singleton {P : LoadEv → Prop} {b : Bool} {x : LoadEv}
    (hx : P x) : ∀ e ∈ (if b then [x] else []), P e := by
  cases b
  · intro e he; cases he
  · intro e he; exact (List.mem_singleton.mp he) ▸ hx

/-- A mapped step list satisfies a property holding of every image. -/
lemma forall_mem_map_ev {α : Type} {f : α → LoadEv} {l : List α}
    {P : LoadEv → Prop} (h : ∀ a, P (f a)) : ∀ e ∈ l.map f, P e := by
  intro e he
  obtain ⟨a, _, rfl⟩ := List.mem_map.mp he
  exact h a

/-- A singleton step list satisfies a property its event does. -/
lemma forall_mem_singleton_ev {P : LoadEv → Prop} {x : LoadEv} (hx : P x) :
    ∀ e ∈ [x], P e := by
  intro e he
  exact (List.mem_singleton.mp he) ▸ hx

/-- Every cmd_load trace splits into a first phase with no constraint
creation and a second phase with no extraction call and no entity
resolution. -/
lemma trace_decomp (clear csvExists amExists : Bool) (globbed : List String)
    (limit : Option Int) (ext : ExtractOracle) :
    ∃ A B, cmd_load_trace clear csvExists amExists globbed limit ext = A ++ B ∧
      (∀ e ∈ A, isConstraintEv e = false) ∧
      (∀ e ∈ B, isExtractOrResEv e = false) := by
  by_cases hempty : (sortFiles globbed).isEmpty
  · refine ⟨(if clear then [LoadEv.clearDb] else []) ++
      (if csvExists then [LoadEv.createCompanyNodes] else []) ++
      [LoadEv.noPdfsFound], [], ?_, ?_, ?_⟩
    · simp [cmd_load_trace, hempty]
    · simp only [List.forall_mem_append]
      exact ⟨⟨forall_mem_if_singleton rfl, forall_mem_if_singleton rfl⟩,
        forall_mem_singleton_ev rfl⟩
    · intro e he
      cases he
  · refine ⟨(if clear then [LoadEv.clearDb] else []) ++
      (if csvExists then [LoadEv.createCompanyNodes] else []) ++
      ((applyLimit (sortFiles globbed) limit).map LoadEv.extract) ++
      [LoadEv.summary
        (write_summary (process_all_pdfs ext (applyLimit (sortFiles globbed) limit))).total
        (write_summary (process_all_pdfs ext (applyLimit (sortFiles globbed) limit))).nSuccessful
        (write_summary (process_all_pdfs ext (applyLimit (sortFiles globbed) limit))).nFailed] ++
      [LoadEv.entityResolution],
      ((CONSTRAINTS ++ EXTRACTION_CONSTRAINTS).map (fun c => LoadEv.constraint c.1)) ++
      [LoadEv.vectorIndex "chunkEmbeddings"] ++
      (FULLTEXT_INDEXES.map (fun f => LoadEv.fulltextIndex f.1)) ++
      (if amExists then [LoadEv.assetManagers] else []) ++
      [LoadEv.verifyCounts, LoadEv.validateEnrichment], ?_, ?_, ?_⟩
    · simp only [cmd_load_trace, hempty, Bool.false_eq_true, if_false]
      simp [List.append_assoc]
    · simp only [List.forall_mem_append]
      exact ⟨⟨⟨⟨forall_mem_if_singleton rfl, forall_mem_if_singleton rfl⟩,
        forall_mem_map_ev (fun d => rfl)⟩, forall_mem_singleton_ev rfl⟩,
        forall_mem_singleton_ev rfl⟩
    · simp only [List.forall_mem_append]
      refine ⟨⟨⟨⟨forall_mem_map_ev (fun c => rfl), forall_mem_singleton_ev rfl⟩,
        forall_mem_map_ev (fun f => rfl)⟩, forall_mem_if_singleton rfl⟩, ?_⟩
      intro e he
      rcases List.mem_cons.mp he with rfl | he2
      · rfl
      · exact (List.mem_singleton.mp he2) ▸ rfl

end FinLoad

namespace FinLoad

/-- The filename comparison is total. -/
lemma charListLe_total : ∀ as bs : List Char,
    charListLe as bs = true ∨ charListLe bs as = true := by
  intro as
  induction as with
  | nil => intro bs; left; rfl
  | cons a as ih =>
    intro bs
    cases bs with
    | nil => right; rfl
    | cons b bs =>
      by_cases h1 : a.toNat < b.toNat
      · left; simp [charListLe, h1]
      · by_cases h2 : b.toNat < a.toNat
        · right; simp [charListLe, h2]
        · rcases ih bs with h | h
          · left; simp [charListLe, h1, h2, h]
          · right; simp [charListLe, h1, h2, h]

/-- The filename comparison is transitive. -/
lemma charListLe_trans : ∀ as bs cs : List Char,
    charListLe as bs = true → charListLe bs cs = true →
    charListLe as cs = true := by
  intro as
  induction as with
  | nil => intro bs cs _ _; rfl
  | cons a as ih =>
    intro bs cs hab hbc
    cases bs with
    | nil => simp [charListLe] at hab
    | cons b bs =>
      cases cs with
      | nil => simp [charListLe] at hbc
      | cons c cs =>
        by_cases h1 : a.toNat < b.toNat
        · by_cases h2 : b.toNat < c.toNat
          · have hac : a.toNat < c.toNat := lt_trans h1 h2
            simp [charListLe, hac]
          · by_cases h3 : c.toNat < b.toNat
            · simp [charListLe, h2, h3] at hbc
            · have hbc0 : b.toNat = c.toNat := by omega
              have hac : a.toNat < c.toNat := hbc0 ▸ h1
              simp [charListLe, hac]
        · by_cases h4 : b.toNat < a.toNat
          · simp [charListLe, h1, h4] at hab
          · have hab0 : charListLe as bs = true := by
              simpa [charListLe, h1, h4] using hab
            have haeqb : a.toNat = b.toNat := by omega
            by_cases h2 : b.toNat < c.toNat
            · have hac : a.toNat < c.toNat := haeqb ▸ h2
              simp [charListLe, hac]
            · by_cases h3 : c.toNat < b.toNat
              · simp [charListLe, h2, h3] at hbc
              · have hbc0 : charListLe bs cs = true := by
                  simpa [charListLe, h2, h3] using hbc
                have hac1 : ¬ a.toNat < c.toNat := by rw [haeqb]; exact h2
                have hac2 : ¬ c.toNat < a.toNat := by rw [haeqb]; exact h3
                simp [charListLe, hac1, hac2]
                exact ih bs cs hab0 hbc0

/-- Extraction calls of a concatenated trace. -/
lemma attemptedDocs_append (A B : List LoadEv) :
    attemptedDocs (A ++ B) = attemptedDocs A ++ attemptedDocs B :=
  List.filterMap_append _ _ _

/-- The optional clear step performs no extraction. -/
lemma attemptedDocs_if_clear (b : Bool) :
    attemptedDocs (if b then [LoadEv.clearDb] else []) = [] := by
  cases b <;> rfl

/-- The optional metadata step performs no extraction. -/
lemma attemptedDocs_if_ccn (b : Bool) :
    attemptedDocs (if b then [LoadEv.createCompanyNodes] else []) = [] := by
  cases b <;> rfl

/-- The optional asset-manager step performs no extraction. -/
lemma attemptedDocs_if_am (b : Bool) :
    attemptedDocs (if b then [LoadEv.assetManagers] else []) = [] := by
  cases b <;> rfl

/-- The extraction phase extracts exactly its documents, in order. -/
lemma attemptedDocs_extract_map (files : List String) :
    attemptedDocs (files.map LoadEv.extract) = files := by
  induction files with
  | nil => rfl
  | cons a l ih =>
    simp only [List.map_cons, attemptedDocs, List.filterMap_cons] at ih ⊢
    rw [ih]

/-- Constraint creation performs no extraction. -/
lemma attemptedDocs_constraint_map (cs : List (String × String × String)) :
    attemptedDocs (cs.map (fun c => LoadEv.constraint c.1)) = [] := by
  induction cs with
  | nil => rfl
  | cons a l ih =>
    simp only [List.map_cons, attemptedDocs, List.filterMap_cons] at ih ⊢
    exact ih

/-- Fulltext index creation performs no extraction. -/
lemma attemptedDocs_fulltext_map (fs : List (String × String × List String)) :
    attemptedDocs (fs.map (fun f => LoadEv.fulltextIndex f.1)) = [] := by
  induction fs with
  | nil => rfl
  | cons a l ih =>
    simp only [List.map_cons, attemptedDocs, List.filterMap_cons] at ih ⊢
    exact ih

/-- The summary step performs no extraction. -/
lemma attemptedDocs_summary (a b c : Nat) :
    attemptedDocs [LoadEv.summary a b c] = [] := rfl

/-- Entity resolution performs no extraction. -/
lemma attemptedDocs_res : attemptedDocs [LoadEv.entityResolution] = [] := rfl

/-- Vector index creation performs no extraction. -/
lemma attemptedDocs_vec (n : String) :
    attemptedDocs [LoadEv.vectorIndex n] = [] := rfl

/-- The no-PDFs report performs no extraction. -/
lemma attemptedDocs_noPdfs : attemptedDocs [LoadEv.noPdfsFound] = [] := rfl

/-- The verification steps perform no extraction. -/
lemma attemptedDocs_tail :
    attemptedDocs [LoadEv.verifyCounts, LoadEv.validateEnrichment] = [] := rfl

/-- Truncating the empty selection yields the empty selection. -/
lemma applyLimit_nil (limit : Option Int) : applyLimit [] limit = [] := by
  cases limit with
  | none => rfl
  | some n => simp [applyLimit, pySlice]

/-- The documents cmd_load attempts are exactly the sorted glob after the
limit truncation, whatever the flags and the oracle. -/
lemma attemptedDocs_trace (clear csvExists amExists : Bool)
    (globbed : List String) (limit : Option Int) (ext : ExtractOracle) :
    attemptedDocs (cmd_load_trace clear csvExists amExists globbed limit ext) =
      applyLimit (sortFiles globbed) limit := by
  by_cases hempty : (sortFiles globbed).isEmpty
  · have h0 : sortFiles globbed = [] := List.isEmpty_iff.mp hempty
    rw [cmd_load_trace, if_pos hempty]
    simp only [attemptedDocs_append, attemptedDocs_if_clear,
      attemptedDocs_if_ccn, attemptedDocs_noPdfs, List.append_nil,
      List.nil_append, h0, applyLimit_nil]
  · rw [cmd_load_trace, if_neg hempty]
    simp only [attemptedDocs_append, attemptedDocs_if_clear,
      attemptedDocs_if_ccn, attemptedDocs_if_am, attemptedDocs_extract_map,
      attemptedDocs_constraint_map, attemptedDocs_fulltext_map,
      attemptedDocs_summary, attemptedDocs_res, attemptedDocs_vec,
      attemptedDocs_tail, List.append_nil, List.nil_append]

end FinLoad

namespace FinLoad

/-- C2 amended: in every cmd_load run, every uniqueness constraint (the core
pair on Company.name and AssetManager.managerName included) is applied only
after every document extraction call and after entity resolution; no
constraint precedes extraction. -/
theorem c2_all_constraints_after_extraction
    (clear csvExists amExists : Bool) (globbed : List String)
    (limit : Option Int) (ext : ExtractOracle) (i j : Nat) (e1 e2 : LoadEv)
    (hi : (cmd_load_trace clear csvExists amExists globbed limit ext).get? i =
      some e1)
    (hpi : isConstraintEv e1 = true)
    (hj : (cmd_load_trace clear csvExists amExists globbed limit ext).get? j =
      some e2)
    (hpj : isExtractOrResEv e2 = true) :
    j < i := by
  obtain ⟨A, B, hAB, hA, hB⟩ :=
    trace_decomp clear csvExists amExists globbed limit ext
  rw [hAB] at hi hj
  exact append_phase_order hA hB hi hpi hj hpj

/-- C2 counterexample: on a one-document run, the claim that the core
constraints are applied before extraction (with extraction-set constraints
after) is false: cmd_load creates every constraint after the pipeline. -/
theorem c2_claim_counterexample :
    ¬ claimC2 (cmd_load_trace false false false ["a.pdf"] none
      (fun _ => Except.ok ())) := by decide

/-- C2 witness: on a concrete one-document run, the extraction call at index
0 precedes the constraint creation at index 3. -/
theorem c2_witness : (0 : Nat) < 3 :=
  c2_all_constraints_after_extraction false false false ["a.pdf"] none
    (fun _ => Except.ok ()) 3 0 (LoadEv.constraint "unique_company_name")
    (LoadEv.extract "a.pdf") (by decide) (by decide) (by decide) (by decide)

/-- C6: when the PDF glob is empty, cmd_load attempts no extraction and
emits no batch summary; it reports the distinct no-PDFs message, which
differs from every summary report a ran batch would produce. -/
theorem c6_empty_glob_reports_no_pdfs (clear csvExists amExists : Bool)
    (limit : Option Int) (ext : ExtractOracle) :
    attemptedDocs (cmd_load_trace clear csvExists amExists [] limit ext) = [] ∧
    (∀ e ∈ cmd_load_trace clear csvExists amExists [] limit ext,
      isSummaryEv e = false) ∧
    LoadEv.noPdfsFound ∈ cmd_load_trace clear csvExists amExists [] limit ext ∧
    (∀ t s f, LoadEv.noPdfsFound ≠ LoadEv.summary t s f) := by
  refine ⟨?_, ?_, ?_, fun t s f h => by cases h⟩
  · rw [attemptedDocs_trace]
    exact applyLimit_nil limit
  · rw [cmd_load_trace,
      if_pos (show (sortFiles ([] : List String)).isEmpty = true from rfl)]
    cases clear <;> cases csvExists <;> decide
  · rw [cmd_load_trace,
      if_pos (show (sortFiles ([] : List String)).isEmpty = true from rfl)]
    cases clear <;> cases csvExists <;> decide

/-- C6 witness: on a concrete empty run, the no-PDFs report is not a summary
event. -/
theorem c6_witness :
    isSummaryEv LoadEv.noPdfsFound = false ∧
    LoadEv.noPdfsFound ≠ LoadEv.summary 0 0 0 :=
  ⟨(c6_empty_glob_reports_no_pdfs false false false none
      (fun _ => Except.ok ())).2.1 LoadEv.noPdfsFound (by decide),
   (c6_empty_glob_reports_no_pdfs false false false none
      (fun _ => Except.ok ())).2.2.2 0 0 0⟩

/-- C7 counterexample: with --limit 0 the list is not truncated to its first
0 entries; Python treats a zero limit as falsy and processes the whole
sorted list. -/
theorem c7_counterexample :
    attemptedDocs (cmd_load_trace false false false ["b.pdf", "a.pdf"] (some 0)
        (fun _ => Except.ok ())) ≠
      (sortFiles ["b.pdf", "a.pdf"]).take (0 : Nat) := by decide

/-- C7 amended: cmd_load attempts exactly the lexicographically sorted glob,
strictly in that order; a positive limit N truncates the sorted list to its
first N entries, while no limit and a zero limit leave it whole.  The sort
is a genuine sort: its output is ordered and a permutation of the input. -/
theorem c7_sorted_then_truncated (clear csvExists amExists : Bool)
    (globbed : List String) (ext : ExtractOracle) :
    attemptedDocs (cmd_load_trace clear csvExists amExists globbed none ext) =
      sortFiles globbed ∧
    (∀ n : Int, 0 < n →
      attemptedDocs
          (cmd_load_trace clear csvExists amExists globbed (some n) ext) =
        (sortFiles globbed).take n.toNat) ∧
    attemptedDocs (cmd_load_trace clear csvExists amExists globbed (some 0) ext) =
      sortFiles globbed ∧
    List.Sorted strLe (sortFiles globbed) ∧
    List.Perm (sortFiles globbed) globbed := by
  refine ⟨?_, ?_, ?_, ?_, ?_⟩
  · rw [attemptedDocs_trace]
    rfl
  · intro n hn
    rw [attemptedDocs_trace]
    have h1 : ¬ n = 0 := by omega
    have h2 : (0 : Int) ≤ n := le_of_lt hn
    simp [applyLimit, pySlice, h1, h2]
  · rw [attemptedDocs_trace]
    simp [applyLimit]
  · haveI : IsTotal String strLe :=
      ⟨fun a b => charListLe_total a.data b.data⟩
    haveI : IsTrans String strLe :=
      ⟨fun a b c => charListLe_trans a.data b.data c.data⟩
    exact List.sorted_insertionSort strLe globbed
  · exact List.perm_insertionSort strLe globbed

/-- C7 witness: a concrete two-document run with limit 1 attempts exactly
the first document in sorted order. -/
theorem c7_witness :
    attemptedDocs (cmd_load_trace false false false ["b.pdf", "a.pdf"] (some 1)
        (fun _ => Except.ok ())) =
      (sortFiles ["b.pdf", "a.pdf"]).take ((1 : Int)).toNat :=
  (c7_sorted_then_truncated false false false ["b.pdf", "a.pdf"]
    (fun _ => Except.ok ())).2.1 1 (by decide)

end FinLoad

namespace FinLoad

/-- A pair present after a dict assignment was present before or is the
assigned pair. -/
lemma mem_dictInsert {p : String × CompanyMeta}
    {m : List (String × CompanyMeta)} {k : String} {v : CompanyMeta}
    (hp : p ∈ dictInsert m k v) : p ∈ m ∨ p = (k, v) := by
  rcases List.mem_append.mp hp with h | h
  · exact Or.inl (List.mem_of_mem_filter h)
  · exact Or.inr (List.mem_singleton.mp h)

/-- Every entry accumulated by the load_company_metadata fold comes from the
initial accumulator or is built by companyOfRow from some input row. -/
lemma load_meta_fold_mem :
    ∀ (rows : List Row) (acc : List (String × CompanyMeta))
      (p : String × CompanyMeta),
      p ∈ rows.foldl (fun m row =>
        match rowFilename row with
        | some fn => dictInsert m fn (companyOfRow row)
        | none => m) acc →
      p ∈ acc ∨ ∃ r ∈ rows, p.2 = companyOfRow r := by
  intro rows
  induction rows with
  | nil => intro acc p hp; exact Or.inl hp
  | cons r rest ih =>
    intro acc p hp
    rcases ih _ p hp with h | ⟨r2, hr2, he⟩
    · simp only at h
      cases hfn : rowFilename r with
      | none => rw [hfn] at h; exact Or.inl h
      | some fn =>
        rw [hfn] at h
        rcases mem_dictInsert h with h2 | h2
        · exact Or.inl h2
        · refine Or.inr ⟨r, List.mem_cons_self r rest, ?_⟩
          rw [h2]
    · exact Or.inr ⟨r2, List.mem_cons_of_mem _ hr2, he⟩

/-- A successful dict lookup returns the value of an entry of the dict. -/
lemma dictLookup_mem {m : List (String × CompanyMeta)} {k : String}
    {v : CompanyMeta} (h : dictLookup m k = some v) :
    ∃ p ∈ m, p.2 = v := by
  unfold dictLookup at h
  cases hf : m.find? (fun p => p.1 == k) with
  | none => rw [hf] at h; simp at h
  | some p =>
    rw [hf] at h
    exact ⟨p, List.mem_of_find?_eq_some hf, Option.some.inj h⟩

/-- Every holding returned by load_asset_managers is built by holdingOfRow
from some input row. -/
lemma load_asset_managers_sound :
    ∀ (rows : List Row) (hs : List Holding),
      load_asset_managers rows = Except.ok hs →
      ∀ h ∈ hs, ∃ r ∈ rows, holdingOfRow r = Except.ok h := by
  intro rows
  induction rows with
  | nil =>
    intro hs heq h hh
    rw [load_asset_managers] at heq
    rw [← Except.ok.inj heq] at hh
    cases hh
  | cons r rest ih =>
    intro hs heq h hh
    rw [load_asset_managers] at heq
    cases h1 : holdingOfRow r with
    | error e => rw [h1] at heq; cases heq
    | ok h0 =>
      rw [h1] at heq
      cases h2 : load_asset_managers rest with
      | error e => rw [h2] at heq; cases heq
      | ok hs0 =>
        rw [h2] at heq
        rw [← Except.ok.inj heq] at hh
        rcases List.mem_cons.mp hh with rfl | hh2
        · exact ⟨r, List.mem_cons_self r rest, h1⟩
        · obtain ⟨r2, hr2, hr3⟩ := ih hs0 h2 h hh2
          exact ⟨r2, List.mem_cons_of_mem _ hr2, hr3⟩

/-- C8: for every row of the reference CSV files, an absent name, ticker,
cik or cusip column yields the empty string in the companyOfRow record; an
absent managerName or companyName column yields the empty string and an
absent shares column yields 0 in the holding returned for that row; and
every record returned by load_company_metadata and load_asset_managers is
built per-row by these constructors, for any ordering of the rows. -/
theorem c8_csv_defaults (rows : List Row) (row : Row) (hrow : row ∈ rows) :
    (rowGet row "name" = none → (companyOfRow row).name = "") ∧
    (rowGet row "ticker" = none → (companyOfRow row).ticker = "") ∧
    (rowGet row "cik" = none → (companyOfRow row).cik = "") ∧
    (rowGet row "cusip" = none → (companyOfRow row).cusip = "") ∧
    (∀ h, holdingOfRow row = Except.ok h →
      (rowGet row "managerName" = none → h.manager_name = "") ∧
      (rowGet row "companyName" = none → h.company_name = "") ∧
      (rowGet row "shares" = none → h.shares = 0)) ∧
    (rowGet row "shares" = none →
      holdingOfRow row = Except.ok
        { manager_name := rowGetD row "managerName" ""
          company_name := rowGetD row "companyName" ""
          shares := 0 }) ∧
    (∀ fn meta, dictLookup (load_company_metadata rows) fn = some meta →
      ∃ r ∈ rows, meta = companyOfRow r) ∧
    (∀ hs, load_asset_managers rows = Except.ok hs →
      ∀ h ∈ hs, ∃ r ∈ rows, holdingOfRow r = Except.ok h) := by
  refine ⟨fun h => ?_, fun h => ?_, fun h => ?_, fun h => ?_, ?_, ?_, ?_, ?_⟩
  · simp [companyOfRow, rowGetD, h]
  · simp [companyOfRow, rowGetD, h]
  · simp [companyOfRow, rowGetD, h]
  · simp [companyOfRow, rowGetD, h]
  · intro h heq
    cases hk : rowGet row "shares" with
    | none =>
      rw [holdingOfRow, hk] at heq
      rw [← Except.ok.inj heq]
      refine ⟨fun hm => ?_, fun hc => ?_, fun _ => rfl⟩
      · simp [rowGetD, hm]
      · simp [rowGetD, hc]
    | some s =>
      cases hp : pyInt s with
      | none =>
        rw [holdingOfRow, hk] at heq
        simp only at heq
        rw [hp] at heq
        cases heq
      | some v =>
        rw [holdingOfRow, hk] at heq
        simp only at heq
        rw [hp] at heq
        rw [← Except.ok.inj heq]
        refine ⟨fun hm => ?_, fun hc => ?_, fun hz => ?_⟩
        · simp [rowGetD, hm]
        · simp [rowGetD, hc]
        · exact Option.noConfusion hz
  · intro h
    rw [holdingOfRow, h]
  · intro fn meta hl
    obtain ⟨p, hp, hp2⟩ := dictLookup_mem hl
    rcases load_meta_fold_mem rows [] p hp with h0 | ⟨r, hr, he⟩
    · cases h0
    · exact ⟨r, hr, by rw [← hp2, he]⟩
  · exact load_asset_managers_sound rows

/-- C8 witness: a concrete row carrying only a path has every metadata field
defaulted to the empty string, and its holding defaults shares to 0. -/
theorem c8_csv_defaults_witness :
    (companyOfRow [("path_Mac_ix", "dir/a.pdf")]).name = "" ∧
    holdingOfRow [("path_Mac_ix", "dir/a.pdf")] = Except.ok
      { manager_name := "", company_name := "", shares := 0 } :=
  ⟨(c8_csv_defaults [[("path_Mac_ix", "dir/a.pdf")]]
      [("path_Mac_ix", "dir/a.pdf")] (by decide)).1 (by decide),
   (c8_csv_defaults [[("path_Mac_ix", "dir/a.pdf")]]
      [("path_Mac_ix", "dir/a.pdf")] (by decide)).2.2.2.2.2.1 (by decide)⟩

end FinLoad
